import Mathlib

/-!
Verification of the two command-line utilities in this repository:
`combine_json.py` (Pipeline A, the JSON combiner) and
`extract_contracts.py` (Pipeline B, the contract extractor).

The Python code is shallowly embedded: pure fragments become Lean
functions, the file system is an explicit parameter (a directory listing
plus a parse oracle), and the external JSON / HTML libraries are modelled
at their interface (parsed JSON values; a stream of markup events).
Machine-level caveats: Python `str.strip` / `\d` are modelled over the
ASCII whitespace / digit classes, which is what the repository's data uses.
-/

namespace DPWH

/-! ## JSON values

A parsed JSON document, as returned by `json.load`.  Numbers are modelled
as integers (the repository never does arithmetic on them). -/

inductive JsonVal : Type where
  | null : JsonVal
  | bool (b : Bool) : JsonVal
  | num (n : Int) : JsonVal
  | str (s : String) : JsonVal
  | arr (items : List JsonVal) : JsonVal
  | obj (fields : List (String × JsonVal)) : JsonVal

/-! ## Model of `json.dumps(v, ensure_ascii=False, indent=n)` -/

def hexDigitChar (n : Nat) : Char :=
  if n < 10 then Char.ofNat (48 + n) else Char.ofNat (87 + n)

/-- JSON escaping of one character, with `ensure_ascii=False`. -/
def escapeChar (c : Char) : List Char :=
  if c = '"' then ['\\', '"']
  else if c = '\\' then ['\\', '\\']
  else if c = '\n' then ['\\', 'n']
  else if c = '\t' then ['\\', 't']
  else if c = '\r' then ['\\', 'r']
  else if c.toNat = 8 then ['\\', 'b']
  else if c.toNat = 12 then ['\\', 'f']
  else if c.toNat < 32 then ['\\', 'u', '0', '0', hexDigitChar (c.toNat / 16), hexDigitChar (c.toNat % 16)]
  else [c]

def jsonQuote (s : String) : String :=
  ⟨'"' :: (s.data.map escapeChar).flatten ++ ['"']⟩

/-- `ind * level` spaces: the indentation Python's `json` module puts in
front of an element nested `level` containers deep, for `indent=ind`. -/
def padStr (ind level : Nat) : String :=
  ⟨List.replicate (ind * level) ' '⟩

def joinSep (sep : String) : List String → String
  | [] => ""
  | [x] => x
  | x :: y :: rest => x ++ sep ++ joinSep sep (y :: rest)

mutual

def dumpsVal (ind level : Nat) : JsonVal → String
  | .null => "null"
  | .bool b => if b then "true" else "false"
  | .num n => toString n
  | .str s => jsonQuote s
  | .arr [] => "[]"
  | .arr (x :: xs) =>
    "[\n" ++ joinSep ",\n" (dumpsList ind (level + 1) (x :: xs)) ++ "\n" ++ padStr ind level ++ "]"
  | .obj [] => "\x7b\x7d"
  | .obj (f :: fs) =>
    "\x7b\n" ++ joinSep ",\n" (dumpsFields ind (level + 1) (f :: fs)) ++ "\n" ++ padStr ind level ++ "\x7d"

def dumpsList (ind level : Nat) : List JsonVal → List String
  | [] => []
  | x :: xs => (padStr ind level ++ dumpsVal ind level x) :: dumpsList ind level xs

def dumpsFields (ind level : Nat) : List (String × JsonVal) → List String
  | [] => []
  | (k, v) :: fs =>
    (padStr ind level ++ jsonQuote k ++ ": " ++ dumpsVal ind level v) :: dumpsFields ind level fs

end

/-- `json.dumps(v, ensure_ascii=False, indent=indent)`; a negative indent
only inserts newlines, like `0` (per the `json` module's documentation). -/
def pyDumps (v : JsonVal) (indent : Int) : String :=
  dumpsVal indent.toNat 0 v

/-! ## Pipeline A: `combine_json.py`

The file system is a directory listing (`entries`, the file names directly
under the directory) together with a parse oracle `parse : String → Option
JsonVal` giving each file's `json.load` result; `none` models a
`json.JSONDecodeError`. -/

/-- Code-point lexicographic order on character lists, the order Python
uses to compare strings (and hence to sort same-directory `Path`s). -/
def lexLe : List Char → List Char → Bool
  | [], _ => true
  | _ :: _, [] => false
  | a :: as, b :: bs => if a < b then true else if b < a then false else lexLe as bs

def nameLe (a b : String) : Bool :=
  lexLe a.data b.data

/-- The file-name order as a decidable relation, for sorting. -/
def nameLeR (a b : String) : Prop :=
  nameLe a b = true

instance : DecidableRel nameLeR := fun a b => instDecidableEqBool (nameLe a b) true

/-- `directory.glob("*.json")` membership test: `*` matches any run of
characters (dotfiles included, as `pathlib` does). -/
def matchesJsonGlob (name : String) : Bool :=
  ".json".data.isSuffixOf name.data

/-- `collect_json_files`: the `*.json` entries of the directory, sorted
lexicographically, minus the file whose resolved path equals the resolved
output path (modelled by name within the directory). -/
def collect_json_files (entries : List String) (outputName : String) : List String :=
  (((entries.filter matchesJsonGlob).insertionSort nameLeR).filter (fun n => n ≠ outputName))

/-- `load_json_as_list`: a `JSONDecodeError` becomes a `RuntimeError`
naming the file; a parsed list passes through; anything else is wrapped. -/
def load_json_as_list (path : String) (parsed : Option JsonVal) : Except String (List JsonVal) :=
  match parsed with
  | none => .error ("Failed to parse " ++ path)
  | some (.arr items) => .ok items
  | some v => .ok [v]

/-- The accumulation loop of `main`: `combined.extend(load_json_as_list(f))`
over the collected files, aborting at the first load failure. -/
def combineAll (parse : String → Option JsonVal) : List String → Except String (List JsonVal)
  | [] => .ok []
  | name :: rest =>
    match load_json_as_list name (parse name) with
    | .error e => .error e
    | .ok items =>
      match combineAll parse rest with
      | .error e => .error e
      | .ok restItems => .ok (items ++ restItems)

/-- The observable result of a successful combiner run: the text written
to the output file and the summary line printed to standard output. -/
structure RunOutput : Type where
  outPath : String
  written : String
  summary : String
deriving DecidableEq

/-- `combine_json.main`, from the directory check to the final report.
`.error` means the run raised before `write_combined_json` ran, so no
output file was written or overwritten. -/
def combine_main (isDir : Bool) (dirName : String) (entries : List String)
    (parse : String → Option JsonVal) (outputName : String) : Except String RunOutput :=
  if !isDir then .error ("Directory does not exist: " ++ dirName) else
  let files := collect_json_files entries outputName
  match combineAll parse files with
  | .error e => .error e
  | .ok combined =>
    .ok { outPath := outputName
          written := pyDumps (.arr combined) 2
          summary := "Combined " ++ toString files.length ++ " file(s) into " ++ outputName
                     ++ " with " ++ toString combined.length ++ " item(s)." }

/-! ## Pipeline B: `extract_contracts.py`

`html.parser.HTMLParser` is an external collaborator: feeding it a
document produces a stream of start-tag / data / end-tag callbacks, which
we model as a list of `MarkupEvent`s.  An attribute value of `none` models
a valueless HTML attribute (Python passes `None`). -/

inductive MarkupEvent : Type where
  | startTag (tag : String) (attrs : List (String × Option String)) : MarkupEvent
  | text (data : String) : MarkupEvent
  | endTag (tag : String) : MarkupEvent
deriving DecidableEq

/-- Python string truthiness: non-empty. -/
def strTruthy (s : String) : Bool :=
  s ≠ ""

/-- Truthiness of an optional string (`None` and `""` are falsy). -/
def optTruthy : Option String → Bool
  | some s => strTruthy s
  | none => false

/-- `str.strip()` over the ASCII whitespace class. -/
def pyStrip (s : String) : String :=
  ⟨(((s.data.dropWhile Char.isWhitespace).reverse.dropWhile Char.isWhitespace).reverse)⟩

/-- A string free of leading and trailing whitespace (vacuously true of
the empty string): no edge-space artifacts. -/
def noEdgeWS (s : String) : Bool :=
  s.data.head?.all (fun c => !c.isWhitespace) && s.data.getLast?.all (fun c => !c.isWhitespace)

/-- `str.lower()` (ASCII; the tags involved are ASCII). -/
def pyLower (s : String) : String :=
  ⟨s.data.map Char.toLower⟩

/-- `dict(attrs).get(key)`: the value of the last pair with that key
(later duplicates overwrite earlier ones), flattened with the `get`
default `None`. -/
def dictGet (attrs : List (String × Option String)) (key : String) : Option String :=
  match attrs.reverse.find? (fun a => a.1 = key) with
  | some a => a.2
  | none => none

/-- First-match association-list lookup: `values[key]` / `values.get(key)`
on the parser's insertion-ordered dict (which never holds duplicate keys). -/
def getValue (values : List (String × String)) (key : String) : Option String :=
  match values.find? (fun kv => kv.1 = key) with
  | some kv => some kv.2
  | none => none

/-- `values.setdefault(key, "")`: insert at the end if absent. -/
def setdefaultEmpty (values : List (String × String)) (key : String) : List (String × String) :=
  if (getValue values key).isSome then values else values ++ [(key, "")]

/-- `values[key] = v` for a present key (keeps insertion position). -/
def setValue (values : List (String × String)) (key v : String) : List (String × String) :=
  values.map (fun kv => if kv.1 = key then (key, v) else kv)

/-- `ContractHTMLParser`'s state: `_current_id` and `values`. -/
structure ScannerState : Type where
  currentId : Option String
  values : List (String × String)
deriving DecidableEq

def initState : ScannerState :=
  { currentId := none, values := [] }

/-- `ContractHTMLParser.handle_starttag`. -/
def handle_starttag (st : ScannerState) (tag : String)
    (attrs : List (String × Option String)) : ScannerState :=
  if pyLower tag ≠ "span" then st
  else
    match dictGet attrs "id" with
    | some eid =>
      if strTruthy eid then
        { currentId := some eid, values := setdefaultEmpty st.values eid }
      else st
    | none => st

/-- `ContractHTMLParser.handle_data`.  In every state reachable from
`initState` a set `currentId` is a key of `values` (via `setdefault`), so
the absent-key fallback (read "" and insert) is never exercised. -/
def handle_data (st : ScannerState) (data : String) : ScannerState :=
  if !optTruthy st.currentId then st
  else
    let text := pyStrip data
    if !strTruthy text then st
    else
      match st.currentId with
      | none => st
      | some cid =>
        match getValue st.values cid with
        | some old =>
          let newVal := if strTruthy old then old ++ " " ++ text else text
          { st with values := setValue st.values cid newVal }
        | none => { st with values := st.values ++ [(cid, text)] }

/-- `ContractHTMLParser.handle_endtag`. -/
def handle_endtag (st : ScannerState) (tag : String) : ScannerState :=
  if pyLower tag = "span" then { st with currentId := none } else st

def stepEvent (st : ScannerState) : MarkupEvent → ScannerState
  | .startTag tag attrs => handle_starttag st tag attrs
  | .text d => handle_data st d
  | .endTag tag => handle_endtag st tag

/-- `parser.feed(html_source)`: run the event stream from the fresh state. -/
def feedEvents (events : List MarkupEvent) : ScannerState :=
  events.foldl stepEvent initState

/-- `int(l)` on an all-digit non-empty character run (`\d+` capture). -/
def digitsToNat? (l : List Char) : Option Nat :=
  if l ≠ [] && l.all Char.isDigit then
    some (l.foldl (fun acc c => acc * 10 + (c.toNat - 48)) 0)
  else none

/-- `INDEX_PATTERN.match(element_id)`, for `Repeater1_[^_]+_(\d+)$`
anchored at the start: the id is `Repeater1_` + a non-empty run without
underscores + `_` + a non-empty digit run, and the digits are returned. -/
def matchRowIndex (elementId : String) : Option Nat :=
  let cs := elementId.data
  if "Repeater1_".data.isPrefixOf cs then
    match (cs.drop 10).splitOn '_' with
    | [mid, digits] => if mid = [] then none else digitsToNat? digits
    | _ => none
  else none

/-- `sorted({int(m.group(1)) for id in raw_values if (m := ...)})`:
the distinct captured indices, ascending. -/
def rowIndices (values : List (String × String)) : List Nat :=
  (((values.map Prod.fst).filterMap matchRowIndex).dedup).insertionSort (· ≤ ·)

/-- The nine-line literal `FIELD_ID_MAP` of the source, in source order:
field name paired with its `id` template applied to a row index. -/
def FIELD_ID_MAP : List (String × (Nat → String)) :=
  [("contract_id", fun idx => "Repeater1_lblCustomerId_" ++ toString idx),
   ("contract_description", fun idx => "Repeater1_lblContactName_" ++ toString idx),
   ("contractor", fun idx => "Repeater1_lblCountry_" ++ toString idx),
   ("implementing_office", fun idx => "Repeater1_Label5_" ++ toString idx),
   ("source_of_funds", fun idx => "Repeater1_Label6_" ++ toString idx),
   ("contract_cost_php", fun idx => "Repeater1_Label2_" ++ toString idx),
   ("contract_effectivity_date", fun idx => "Repeater1_Label3_" ++ toString idx),
   ("contract_expiry_date", fun idx => "Repeater1_Label4_" ++ toString idx),
   ("status", fun idx => "Repeater1_Label7_" ++ toString idx),
   ("percent_accomplishment", fun idx => "Repeater1_Label1_" ++ toString idx)]

/-- One contract record: field name to found text or `None`. -/
abbrev ContractRecord := List (String × Option String)

/-- The record built for one row index: each field looked up in the
accumulated mapping, absent ids stored as `None`. -/
def buildRecord (values : List (String × String)) (idx : Nat) : ContractRecord :=
  FIELD_ID_MAP.map (fun ft => (ft.1, getValue values (ft.2 idx)))

/-- `record.get(field)` (`None` both for an absent key and a stored `None`). -/
def recordGet (record : ContractRecord) (field : String) : Option String :=
  match record.find? (fun kv => kv.1 = field) with
  | some kv => kv.2
  | none => none

/-- The assembler's retention test for a row: its `contract_id` field is
present and non-empty. -/
def keepRow (values : List (String × String)) (idx : Nat) : Bool :=
  optTruthy (recordGet (buildRecord values idx) "contract_id")

/-- `parse_contracts` on the event stream of the document: assemble one
record per discovered row index, ascending, dropping rows whose
`contract_id` is absent or empty. -/
def parse_contracts (events : List MarkupEvent) : List ContractRecord :=
  let rawValues := (feedEvents events).values
  (rowIndices rawValues).filterMap (fun idx =>
    let record := buildRecord rawValues idx
    if optTruthy (recordGet record "contract_id") then some record else none)

/-- A record as the JSON object `json.dumps` receives. -/
def recordToJson (r : ContractRecord) : JsonVal :=
  .obj (r.map (fun kv =>
    (kv.1, match kv.2 with
           | some s => JsonVal.str s
           | none => JsonVal.null)))

/-- `json.dumps(contracts, ensure_ascii=False, indent=args.indent)`. -/
def extractPayload (events : List MarkupEvent) (indent : Int) : String :=
  pyDumps (.arr ((parse_contracts events).map recordToJson)) indent

/-! ### The output-path derivation of `extract_contracts.main`

`pathlib.PurePath.suffixes` on the final path component: empty for a name
ending in a dot; otherwise strip leading dots, split the rest on dots, and
each part after the first, re-prefixed with a dot, is a suffix. -/

def suffixesCh (name : List Char) : List (List Char) :=
  if name.getLast? = some '.' then []
  else ((name.dropWhile (· = '.')).splitOn '.').tail.map (fun p => '.' :: p)

/-- `"".join(output_path.suffixes)` on the character level. -/
def joinedSuffixCh (name : List Char) : List Char :=
  (suffixesCh name).flatten

def joinedSuffix (name : String) : String :=
  ⟨joinedSuffixCh name.data⟩

/-- `output_path.name[: -len(suffix)] if suffix else output_path.name`. -/
def baseName (name : String) : String :=
  let suffix := joinedSuffixCh name.data
  if suffix = [] then name else ⟨name.data.take (name.data.length - suffix.length)⟩

/-- `f"{base_name}_{contract_count}{suffix}"`. -/
def derivedName (name : String) (count : Nat) : String :=
  baseName name ++ "_" ++ toString count ++ joinedSuffix name

/-- An observable effect of the extractor: a file write (name in the
requested path's directory, content) or a line printed to standard output. -/
inductive OutputAction : Type where
  | writeFile (name : String) (content : String) : OutputAction
  | stdout (content : String) : OutputAction
deriving DecidableEq

/-- The output stage of `extract_contracts.main` (after the HTML file has
been read and fed to the parser): `output` is `args.output`, the file name
of the requested output path. -/
def extract_main (events : List MarkupEvent) (output : Option String)
    (indent : Int) : OutputAction :=
  let contract_count := (parse_contracts events).length
  let json_payload := extractPayload events indent
  match output with
  | some o =>
    if strTruthy o then .writeFile (derivedName o contract_count) (json_payload ++ "\n")
    else .stdout json_payload
  | none => .stdout json_payload

/-! ## Concrete example inputs -/

/-- A document with a single identified span: row 0's contract id. -/
def exOneContract : List MarkupEvent :=
  [.startTag "span" [("id", some "Repeater1_lblCustomerId_0")], .text "C-1", .endTag "span"]

/-- The record `parse_contracts` assembles from `exOneContract`. -/
def exOneContractRecord : ContractRecord :=
  [("contract_id", some "C-1"), ("contract_description", none), ("contractor", none),
   ("implementing_office", none), ("source_of_funds", none), ("contract_cost_php", none),
   ("contract_effectivity_date", none), ("contract_expiry_date", none), ("status", none),
   ("percent_accomplishment", none)]

/-- The spec's two-row example: row 0 has contract id "C-1", row 1's
contract-id span contains only empty text. -/
def exTwoRows : List MarkupEvent :=
  [.startTag "span" [("id", some "Repeater1_lblCustomerId_0")], .text "C-1", .endTag "span",
   .startTag "span" [("id", some "Repeater1_lblCustomerId_1")], .text "", .endTag "span"]

/-- A span whose text is interrupted by a nested non-span element and an
id-less span; accumulation continues until the span end-tag. -/
def exNested : List MarkupEvent :=
  [.startTag "span" [("id", some "X")], .text "a", .startTag "b" [], .text "b",
   .endTag "b", .startTag "span" [], .text "c", .endTag "span", .text "tail"]

/-- A directory with one well-formed and one malformed JSON file. -/
def exBadEntries : List String :=
  ["a.json", "bad.json"]

def exBadParse : String → Option JsonVal :=
  fun n => if n = "a.json" then some (.arr [.num 1]) else none

/-- A directory of two valid JSON array files (listed out of order). -/
def exArrEntries : List String :=
  ["b.json", "a.json", "notes.txt"]

def exArrParse : String → Option JsonVal :=
  fun n => if n = "a.json" then some (.arr [.num 1, .num 2])
           else if n = "b.json" then some (.arr [.num 3]) else none

def exArrContents : String → List JsonVal :=
  fun n => if n = "a.json" then [.num 1, .num 2]
           else if n = "b.json" then [.num 3] else []

/-! ## General lemmas -/

theorem combineAll_error_of_bad (parse : String → Option JsonVal) :
    ∀ names : List String, (∃ b ∈ names, parse b = none) →
      ∃ p ∈ names, parse p = none ∧
        combineAll parse names = .error ("Failed to parse " ++ p)
  | [], h => absurd h (by simp)
  | name :: rest, h => by
    by_cases hn : parse name = none
    · exact ⟨name, List.mem_cons_self _ _, hn, by simp [combineAll, hn, load_json_as_list]⟩
    · obtain ⟨b, hb, hbad⟩ := h
      have hbrest : b ∈ rest := by
        cases hb with
        | head => exact absurd hbad hn
        | tail _ h' => exact h'
      obtain ⟨p, hp, hpn, hres⟩ := combineAll_error_of_bad parse rest ⟨b, hbrest, hbad⟩
      refine ⟨p, List.mem_cons_of_mem _ hp, hpn, ?_⟩
      obtain ⟨v, hv⟩ := Option.ne_none_iff_exists'.mp hn
      cases v <;> simp [combineAll, hv, load_json_as_list, hres]

theorem combineAll_ok_of_arrays (parse : String → Option JsonVal)
    (arrs : String → List JsonVal) :
    ∀ names : List String, (∀ name ∈ names, parse name = some (.arr (arrs name))) →
      combineAll parse names = .ok ((names.map arrs).flatten)
  | [], _ => rfl
  | name :: rest, h => by
    have hn := h name (List.mem_cons_self _ _)
    have hrest := combineAll_ok_of_arrays parse arrs rest
      (fun n hn' => h n (List.mem_cons_of_mem _ hn'))
    simp [combineAll, hn, load_json_as_list, hrest]

/-! ## Claim C4: normalization in the record loader -/

/-- C4: `load_json_as_list` returns a parsed sequence unchanged and wraps
every non-sequence JSON value (object, scalar, boolean, null) in a
one-element sequence. -/
theorem c4_load_normalizes (path : String) (xs : List JsonVal) (v : JsonVal)
    (hv : ∀ ys : List JsonVal, v ≠ .arr ys) :
    load_json_as_list path (some (.arr xs)) = .ok xs ∧
      load_json_as_list path (some v) = .ok [v] := by
  refine ⟨rfl, ?_⟩
  cases v with
  | arr ys => exact absurd rfl (hv ys)
  | null => rfl
  | bool b => rfl
  | num n => rfl
  | str s => rfl
  | obj fs => rfl

/-- Witness for C4 at a concrete array and a concrete null. -/
theorem c4_load_normalizes_witness :
    load_json_as_list "f.json" (some (.arr [.num 1])) = .ok [.num 1] ∧
      load_json_as_list "f.json" (some .null) = .ok [.null] :=
  c4_load_normalizes "f.json" [.num 1] .null (fun _ h => JsonVal.noConfusion h)

/-! ## Claim C8: the extractor is deterministic -/

/-- C8: on equal event streams and equal indent settings the serialized
JSON payload and the whole output action are byte-identical. -/
theorem c8_deterministic (ev₁ ev₂ : List MarkupEvent) (o : Option String) (i₁ i₂ : Int)
    (he : ev₁ = ev₂) (hi : i₁ = i₂) :
    extractPayload ev₁ i₁ = extractPayload ev₂ i₂ ∧
      extract_main ev₁ o i₁ = extract_main ev₂ o i₂ := by
  subst he; subst hi; exact ⟨rfl, rfl⟩

/-- Witness for C8 on the one-contract document. -/
theorem c8_deterministic_witness :
    extractPayload exOneContract 2 = extractPayload exOneContract 2 ∧
      extract_main exOneContract none 2 = extract_main exOneContract none 2 :=
  c8_deterministic exOneContract exOneContract none 2 2 rfl rfl

/-! ## Claim C9: inert start-tags -/

/-- C9: a start-tag for a non-span element, or for a span without an id
(or with an empty / valueless id), leaves scanner state unchanged; in the
nested example, text keeps accruing to the enclosing identified span until
a span end-tag is seen. -/
theorem c9_inert_starttags :
    (∀ (st : ScannerState) (tag : String) (attrs : List (String × Option String)),
       (pyLower tag ≠ "span" ∨ dictGet attrs "id" = none ∨ dictGet attrs "id" = some "") →
       stepEvent st (.startTag tag attrs) = st) ∧
      feedEvents exNested = { currentId := none, values := [("X", "a b c")] } := by
  refine ⟨?_, by decide⟩
  intro st tag attrs h
  by_cases ht : pyLower tag = "span"
  · rcases h with h | h | h
    · exact absurd ht h
    · simp [stepEvent, handle_starttag, ht, h]
    · simp [stepEvent, handle_starttag, ht, h, strTruthy]
  · simp [stepEvent, handle_starttag, ht]

/-- Witness for C9: a `div` start-tag fixes nothing. -/
theorem c9_inert_starttags_witness :
    stepEvent { currentId := some "X", values := [("X", "a")] } (.startTag "div" []) =
      { currentId := some "X", values := [("X", "a")] } :=
  c9_inert_starttags.1 _ "div" [] (Or.inl (by decide))

/-! ## Claim C10: empty candidate set -/

/-- C10: with no candidate JSON files the combiner run succeeds, writes an
empty JSON array, and reports zero files and zero items. -/
theorem c10_empty_candidates (entries : List String) (parse : String → Option JsonVal)
    (dirName outputName : String) (h : collect_json_files entries outputName = []) :
    combine_main true dirName entries parse outputName = .ok
      { outPath := outputName
        written := "[]"
        summary := "Combined " ++ "0" ++ " file(s) into " ++ outputName
                   ++ " with " ++ "0" ++ " item(s)." } := by
  simp only [combine_main, h, combineAll]
  rfl

/-- Witness for C10: a directory holding only a non-JSON file and the
output file itself. -/
theorem c10_empty_candidates_witness :
    combine_main true "." ["notes.txt", "all.json"] (fun _ => none) "all.json" = .ok
      { outPath := "all.json"
        written := "[]"
        summary := "Combined " ++ "0" ++ " file(s) into " ++ "all.json"
                   ++ " with " ++ "0" ++ " item(s)." } :=
  c10_empty_candidates ["notes.txt", "all.json"] (fun _ => none) "." "all.json" (by decide)

theorem lexLe_total : ∀ a b : List Char, lexLe a b = true ∨ lexLe b a = true
  | [], _ => Or.inl rfl
  | _ :: _, [] => Or.inr rfl
  | a :: as, b :: bs => by
    rcases lt_trichotomy a b with h | h | h
    · left; simp [lexLe, h]
    · subst h
      rcases lexLe_total as bs with ih | ih
      · left; simp [lexLe, lt_irrefl, ih]
      · right; simp [lexLe, lt_irrefl, ih]
    · right; simp [lexLe, h]

theorem lexLe_trans : ∀ a b c : List Char,
    lexLe a b = true → lexLe b c = true → lexLe a c = true
  | [], _, _, _, _ => rfl
  | _ :: _, [], _, h1, _ => by simp [lexLe] at h1
  | _ :: _, _ :: _, [], _, h2 => by simp [lexLe] at h2
  | x :: xs, y :: ys, z :: zs, h1, h2 => by
    by_cases hxy : x < y
    · by_cases hyz : y < z
      · simp [lexLe, lt_trans hxy hyz]
      · by_cases hzy : z < y
        · simp [lexLe, hyz, hzy] at h2
        · have hyz' : y = z := le_antisymm (not_lt.mp hzy) (not_lt.mp hyz)
          subst hyz'
          simp [lexLe, hxy]
    · by_cases hyx : y < x
      · simp [lexLe, hxy, hyx] at h1
      · have hxy' : x = y := le_antisymm (not_lt.mp hyx) (not_lt.mp hxy)
        subst hxy'
        simp only [lexLe, if_neg hxy, if_neg hyx] at h1
        by_cases hxz : x < z
        · simp [lexLe, hxz]
        · by_cases hzx : z < x
          · simp [lexLe, hxz, hzx] at h2
          · have hxz' : x = z := le_antisymm (not_lt.mp hzx) (not_lt.mp hxz)
            subst hxz'
            simp only [lexLe, if_neg hxz, if_neg hzx] at h2 ⊢
            exact lexLe_trans xs ys zs h1 h2

/-- The collected file list is lexicographically sorted. -/
theorem collect_json_files_sorted (entries : List String) (outputName : String) :
    List.Pairwise nameLeR (collect_json_files entries outputName) := by
  haveI : IsTotal String nameLeR := ⟨fun a b => lexLe_total a.data b.data⟩
  haveI : IsTrans String nameLeR := ⟨fun a b c h₁ h₂ => lexLe_trans a.data b.data c.data h₁ h₂⟩
  have hs : List.Sorted nameLeR ((entries.filter matchesJsonGlob).insertionSort nameLeR) :=
    List.sorted_insertionSort nameLeR _
  exact List.Pairwise.sublist (List.filter_sublist _) hs

/-! ## Claim C2: a parse failure aborts the run before any write -/

/-- C2: if some collected file fails to parse, the combiner run ends in an
error naming an offending file's path, and no `RunOutput` (hence no output
file write) is produced. -/
theorem c2_parse_failure_aborts (entries : List String) (parse : String → Option JsonVal)
    (dirName outputName : String)
    (hbad : ∃ b ∈ collect_json_files entries outputName, parse b = none) :
    ∃ p ∈ collect_json_files entries outputName, parse p = none ∧
      combine_main true dirName entries parse outputName =
        .error ("Failed to parse " ++ p) ∧
      ∀ out : RunOutput, combine_main true dirName entries parse outputName ≠ .ok out := by
  obtain ⟨p, hp, hpn, hres⟩ :=
    combineAll_error_of_bad parse (collect_json_files entries outputName) hbad
  refine ⟨p, hp, hpn, ?_, ?_⟩ <;> simp [combine_main, hres]

/-- Witness for C2: a directory whose `bad.json` is malformed. -/
theorem c2_parse_failure_aborts_witness :
    ∃ p ∈ collect_json_files exBadEntries "all.json", exBadParse p = none ∧
      combine_main true "." exBadEntries exBadParse "all.json" =
        .error ("Failed to parse " ++ p) ∧
      ∀ out : RunOutput, combine_main true "." exBadEntries exBadParse "all.json" ≠ .ok out :=
  c2_parse_failure_aborts exBadEntries exBadParse "." "all.json"
    ⟨"bad.json", by decide, rfl⟩

/-! ## Claim C3: concatenation in lexicographic filename order -/

/-- C3: when every collected file parses to a JSON array, the run succeeds
and the combined output is the concatenation of those arrays in collected
(lexicographic-filename) order, with length the sum of the arrays'
lengths; file order is lexicographic and intra-file order is preserved by
concatenation. -/
theorem c3_concatenation_in_order (entries : List String) (parse : String → Option JsonVal)
    (arrs : String → List JsonVal) (dirName outputName : String)
    (h : ∀ name ∈ collect_json_files entries outputName,
          parse name = some (.arr (arrs name))) :
    List.Pairwise nameLeR (collect_json_files entries outputName) ∧
    combineAll parse (collect_json_files entries outputName) =
      .ok (((collect_json_files entries outputName).map arrs).flatten) ∧
    (((collect_json_files entries outputName).map arrs).flatten).length =
      ((collect_json_files entries outputName).map (fun n => (arrs n).length)).sum ∧
    combine_main true dirName entries parse outputName = .ok
      { outPath := outputName
        written := pyDumps
          (.arr (((collect_json_files entries outputName).map arrs).flatten)) 2
        summary := "Combined " ++ toString (collect_json_files entries outputName).length
                   ++ " file(s) into " ++ outputName ++ " with "
                   ++ toString (((collect_json_files entries outputName).map arrs).flatten).length
                   ++ " item(s)." } := by
  have hok := combineAll_ok_of_arrays parse arrs _ h
  refine ⟨collect_json_files_sorted entries outputName, hok, ?_, ?_⟩
  · simp only [List.length_flatten, List.map_map]
    rfl
  · simp [combine_main, hok]

/-- Witness for C3: `a.json = [1, 2]`, `b.json = [3]`, listed out of
order, combine to `[1, 2, 3]`. -/
theorem c3_concatenation_in_order_witness :
    List.Pairwise nameLeR (collect_json_files exArrEntries "all.json") ∧
    combineAll exArrParse (collect_json_files exArrEntries "all.json") =
      .ok (((collect_json_files exArrEntries "all.json").map exArrContents).flatten) ∧
    (((collect_json_files exArrEntries "all.json").map exArrContents).flatten).length =
      ((collect_json_files exArrEntries "all.json").map
        (fun n => (exArrContents n).length)).sum ∧
    combine_main true "." exArrEntries exArrParse "all.json" = .ok
      { outPath := "all.json"
        written := pyDumps
          (.arr (((collect_json_files exArrEntries "all.json").map exArrContents).flatten)) 2
        summary := "Combined " ++ toString (collect_json_files exArrEntries "all.json").length
                   ++ " file(s) into " ++ "all.json" ++ " with "
                   ++ toString
                     (((collect_json_files exArrEntries "all.json").map exArrContents).flatten).length
                   ++ " item(s)." } :=
  c3_concatenation_in_order exArrEntries exArrParse exArrContents "." "all.json" (by
    intro name hname
    have hfiles : collect_json_files exArrEntries "all.json" = ["a.json", "b.json"] := by decide
    rw [hfiles] at hname
    simp only [List.mem_cons, List.not_mem_nil, or_false] at hname
    rcases hname with rfl | rfl <;> rfl)

/-! ## Claim C1: the record key set -/

/-- C1 (counterexample): on a document with one contract row, the
assembled record does NOT have exactly nine keys (it has ten: the source's
`FIELD_ID_MAP` holds ten field entries, not nine as the spec counts). -/
theorem c1_nine_keys_counterexample :
    ¬ (∀ r ∈ parse_contracts exOneContract, r.length = 9) := by decide

theorem filterMap_ite {α β : Type} (p : α → Bool) (g : α → β) (l : List α) :
    l.filterMap (fun a => if p a then some (g a) else none) = (l.filter p).map g := by
  induction l with
  | nil => rfl
  | cons x xs ih =>
    by_cases h : p x <;> simp [List.filterMap_cons, List.filter_cons, h, ih]

/-- C1 (amended): for every event stream, every record produced by
`parse_contracts` is a mapping with exactly ten keys — the ten field names
of `FIELD_ID_MAP`, in table order — regardless of which identifiers were
present in the markup. -/
theorem c1_record_has_ten_keys (events : List MarkupEvent) (r : ContractRecord)
    (hr : r ∈ parse_contracts events) :
    r.map Prod.fst = FIELD_ID_MAP.map Prod.fst ∧ r.length = 10 := by
  simp only [parse_contracts] at hr
  obtain ⟨idx, -, hf⟩ := List.mem_filterMap.mp hr
  split at hf
  · obtain rfl := Option.some_injective _ hf
    refine ⟨?_, ?_⟩
    · simp [buildRecord, List.map_map]
    · simp [buildRecord, FIELD_ID_MAP]
  · exact absurd hf (by simp)

/-- Witness for the amended C1 at the one-contract document. -/
theorem c1_record_has_ten_keys_witness :
    exOneContractRecord.map Prod.fst = FIELD_ID_MAP.map Prod.fst ∧
      exOneContractRecord.length = 10 :=
  c1_record_has_ten_keys exOneContract exOneContractRecord (by decide)

/-! ## Claim C5: retention and record order -/

theorem rowIndices_sorted_lt (values : List (String × String)) :
    List.Pairwise (· < ·) (rowIndices values) := by
  have hs : List.Sorted (· ≤ ·) (rowIndices values) :=
    List.sorted_insertionSort _ _
  have hn : (rowIndices values).Nodup :=
    ((List.perm_insertionSort _ _).nodup_iff).mpr (List.nodup_dedup _)
  exact hs.lt_of_le hn

/-- C5: the assembler emits exactly the records of the retained row
indices, in ascending row-index order; a record is retained iff its
`contract_id` is present and non-empty; and on the spec's two-row example
only row 0's record is produced. -/
theorem c5_retention_and_order (events : List MarkupEvent) :
    parse_contracts events =
      ((rowIndices (feedEvents events).values).filter
        (keepRow (feedEvents events).values)).map
        (buildRecord (feedEvents events).values) ∧
    (∀ r ∈ parse_contracts events, optTruthy (recordGet r "contract_id") = true) ∧
    List.Pairwise (· < ·) (rowIndices (feedEvents events).values) ∧
    parse_contracts exTwoRows = [exOneContractRecord] := by
  have heq : parse_contracts events =
      ((rowIndices (feedEvents events).values).filter
        (keepRow (feedEvents events).values)).map
        (buildRecord (feedEvents events).values) :=
    filterMap_ite (keepRow (feedEvents events).values)
      (buildRecord (feedEvents events).values) (rowIndices (feedEvents events).values)
  refine ⟨heq, ?_, rowIndices_sorted_lt _, by decide⟩
  intro r hr
  rw [heq] at hr
  obtain ⟨idx, hidx, rfl⟩ := List.mem_map.mp hr
  exact (List.mem_filter.mp hidx).2

/-- Witness for C5: the record emitted from the two-row example has a
non-empty contract id. -/
theorem c5_retention_and_order_witness :
    optTruthy (recordGet exOneContractRecord "contract_id") = true :=
  (c5_retention_and_order exTwoRows).2.1 exOneContractRecord (by decide)

/-! ## Claim C6: text accumulation -/

theorem getValue_setValue (values : List (String × String)) (key v : String)
    (h : (getValue values key).isSome) :
    getValue (setValue values key v) key = some v := by
  induction values with
  | nil => simp [getValue] at h
  | cons kv rest ih =>
    by_cases hk : kv.1 = key
    · simp [setValue, getValue, hk]
    · have hd : (decide (kv.1 = key)) = false := by simpa using hk
      unfold getValue at h
      unfold setValue getValue at ih ⊢
      rw [List.map_cons, if_neg hk]
      simp only [List.find?_cons, hd] at h ⊢
      exact ih h

theorem getValue_mem (values : List (String × String)) (k v : String)
    (h : getValue values k = some v) : ∃ kv ∈ values, kv.2 = v := by
  unfold getValue at h
  cases hf : values.find? (fun kv => kv.1 = k) with
  | none => rw [hf] at h; cases h
  | some kv =>
    rw [hf] at h
    exact ⟨kv, List.mem_of_find?_eq_some hf, Option.some_inj.mp h⟩

theorem getLast?_dropWhile_of_ne_nil (p : Char → Bool) :
    ∀ l : List Char, l.dropWhile p ≠ [] → (l.dropWhile p).getLast? = l.getLast?
  | [], h => absurd rfl h
  | x :: xs, h => by
    rw [List.dropWhile_cons] at h ⊢
    by_cases hp : p x
    · rw [if_pos hp] at h ⊢
      have hxs : xs ≠ [] := by
        intro hxs
        rw [hxs] at h
        exact h rfl
      rw [getLast?_dropWhile_of_ne_nil p xs h]
      cases xs with
      | nil => exact absurd rfl hxs
      | cons y ys => rw [List.getLast?_cons_cons]
    · rw [if_neg hp]

theorem noEdgeWS_pyStrip (s : String) : noEdgeWS (pyStrip s) = true := by
  have hres : (pyStrip s).data =
      ((s.data.dropWhile Char.isWhitespace).reverse.dropWhile Char.isWhitespace).reverse := rfl
  unfold noEdgeWS
  rw [hres, List.head?_reverse, List.getLast?_reverse]
  cases hm : (s.data.dropWhile Char.isWhitespace).reverse.dropWhile Char.isWhitespace with
  | nil => simp
  | cons c rest =>
    have h1 := List.head?_dropWhile_not Char.isWhitespace
      ((s.data.dropWhile Char.isWhitespace).reverse)
    rw [hm] at h1
    simp only [List.head?_cons] at h1
    have hlast : (c :: rest).getLast? = (s.data.dropWhile Char.isWhitespace).head? := by
      rw [← hm, getLast?_dropWhile_of_ne_nil _ _ (by rw [hm]; exact List.cons_ne_nil c rest)]
      exact List.getLast?_reverse _
    cases hhead : (s.data.dropWhile Char.isWhitespace) with
    | nil =>
      rw [hhead] at hlast
      simp at hlast
    | cons c' rest' =>
      have h2 := List.head?_dropWhile_not Char.isWhitespace s.data
      rw [hhead] at h2 hlast
      simp only [List.head?_cons] at h2 hlast
      simp [hlast, h1, h2]

theorem noEdgeWS_append (a b : String) (ha : noEdgeWS a = true) (hb : noEdgeWS b = true)
    (ha' : a ≠ "") (hb' : b ≠ "") : noEdgeWS (a ++ " " ++ b) = true := by
  have had : a.data ≠ [] := fun h => ha' (String.ext h)
  have hbd : b.data ≠ [] := fun h => hb' (String.ext h)
  have hdata : (a ++ " " ++ b).data = a.data ++ ([' '] ++ b.data) := by
    simp only [String.data_append, List.append_assoc]
  have hhead : (a.data ++ ([' '] ++ b.data)).head? = a.data.head? := by
    cases hha : a.data with
    | nil => exact absurd hha had
    | cons x xs => simp
  have hlast : (a.data ++ ([' '] ++ b.data)).getLast? = b.data.getLast? := by
    rw [List.getLast?_append_of_ne_nil _ (by simp [hbd]),
      List.getLast?_append_of_ne_nil _ hbd]
  unfold noEdgeWS at ha hb ⊢
  rw [hdata, hhead, hlast]
  simp only [Bool.and_eq_true] at ha hb ⊢
  exact ⟨ha.1, hb.2⟩

/-- Every value the scanner has accumulated is free of edge whitespace. -/
def cleanVals (values : List (String × String)) : Prop :=
  ∀ kv ∈ values, noEdgeWS kv.2 = true

theorem cleanVals_append_single (values : List (String × String)) (k v : String)
    (h : cleanVals values) (hv : noEdgeWS v = true) : cleanVals (values ++ [(k, v)]) := by
  intro kv hkv
  rcases List.mem_append.mp hkv with hkv | hkv
  · exact h kv hkv
  · simp at hkv
    rw [hkv]
    exact hv

theorem cleanVals_step (st : ScannerState) (e : MarkupEvent)
    (h : cleanVals st.values) : cleanVals (stepEvent st e).values := by
  cases e with
  | startTag tag attrs =>
    simp only [stepEvent, handle_starttag]
    split
    · exact h
    · split
      · split
        · exact fun kv hkv => by
            revert hkv
            unfold setdefaultEmpty
            split
            · exact fun hkv => h kv hkv
            · exact fun hkv => cleanVals_append_single st.values _ "" h rfl kv hkv
        · exact h
      · exact h
  | text d =>
    simp only [stepEvent, handle_data]
    split
    · exact h
    · split
      · exact h
      · split
        · exact h
        · rename_i cid hcur
          split
          · rename_i old hold
            intro kv hkv
            obtain ⟨kv₀, hkv₀, rfl⟩ := List.mem_map.mp hkv
            split
            · rename_i hk
              have hoc : noEdgeWS old = true := by
                obtain ⟨kv₁, hkv₁, hkv₁'⟩ := getValue_mem st.values cid old hold
                rw [← hkv₁']
                exact h kv₁ hkv₁
              have htxt : noEdgeWS (pyStrip d) = true := noEdgeWS_pyStrip d
              have hne : pyStrip d ≠ "" := by
                rename_i hts _ _
                simpa [strTruthy] using hts
              by_cases ho : strTruthy old
              · simp only [if_pos ho]
                exact noEdgeWS_append old (pyStrip d) hoc htxt
                  (by simpa [strTruthy] using ho) hne
              · simp only [if_neg ho]
                exact htxt
            · exact h kv₀ hkv₀
          · exact cleanVals_append_single st.values _ _ h (noEdgeWS_pyStrip d)
  | endTag tag =>
    simp only [stepEvent, handle_endtag]
    split <;> exact h

theorem cleanVals_feed (events : List MarkupEvent) : cleanVals (feedEvents events).values := by
  suffices hgen : ∀ st : ScannerState, cleanVals st.values →
      cleanVals (events.foldl stepEvent st).values from
    hgen initState (fun kv hkv => absurd hkv (List.not_mem_nil kv))
  induction events with
  | nil => exact fun st hst => hst
  | cons e rest ih =>
    intro st hst
    exact ih (stepEvent st e) (cleanVals_step st e hst)

/-- C6: a text event with a set current identifier and non-empty stripped
text appends the stripped text to that identifier's accumulated string —
with a single separating space when content exists, with no leading space
on the first append — and every accumulated value is free of leading and
trailing whitespace. -/
theorem c6_text_accumulation :
    (∀ (st : ScannerState) (cid d old : String),
       st.currentId = some cid → cid ≠ "" → pyStrip d ≠ "" →
       getValue st.values cid = some old →
       getValue (handle_data st d).values cid =
         some (if old = "" then pyStrip d else old ++ " " ++ pyStrip d)) ∧
    (∀ (events : List MarkupEvent) (k v : String),
       getValue (feedEvents events).values k = some v → noEdgeWS v = true) := by
  constructor
  · intro st cid d old hcur hcid hstrip hold
    unfold handle_data
    rw [hcur]
    simp only [optTruthy, strTruthy]
    rw [if_neg (by simpa using hcid), if_neg (by simpa using hstrip), hold]
    have hres := getValue_setValue st.values cid
      (if decide (old ≠ "") = true then old ++ " " ++ pyStrip d else pyStrip d)
      (by rw [hold]; rfl)
    rw [hres]
    by_cases ho : old = "" <;> simp [ho]
  · intro events k v hv
    obtain ⟨kv, hkv, rfl⟩ := getValue_mem _ k v hv
    exact cleanVals_feed events kv hkv

/-- Witness for C6: appending " b " to an accumulation holding "a". -/
theorem c6_text_accumulation_witness :
    getValue (handle_data { currentId := some "X", values := [("X", "a")] } " b ").values "X" =
      some (if "a" = "" then pyStrip " b " else "a" ++ " " ++ pyStrip " b ") :=
  c6_text_accumulation.1 { currentId := some "X", values := [("X", "a")] } "X" " b " "a"
    rfl (by decide) (by decide) rfl

/-! ## Claim C7: the derived output filename -/

theorem intercalate_single_cons {α : Type} (c : α) :
    ∀ (q : List α) (qs : List (List α)),
      [c].intercalate (q :: qs) = q ++ (qs.map (fun p => c :: p)).flatten
  | _, [] => by simp [List.intercalate]
  | q, q' :: qs => by
    have ih := intercalate_single_cons c q' qs
    simp only [List.intercalate] at ih ⊢
    rw [List.intersperse_cons₂]
    simp [ih]

/-- The joined suffix is a literal suffix of the file name. -/
theorem joinedSuffixCh_decomp (name : List Char) :
    ∃ front, front ++ joinedSuffixCh name = name := by
  unfold joinedSuffixCh suffixesCh
  by_cases hdot : name.getLast? = some '.'
  · exact ⟨name, by simp [hdot]⟩
  · rw [if_neg hdot]
    cases hsplit : (name.dropWhile (· = '.')).splitOn '.' with
    | nil => exact absurd hsplit (List.splitOnP_ne_nil _ _)
    | cons q qs =>
      have hq : q ++ (qs.map (fun p => '.' :: p)).flatten = name.dropWhile (· = '.') := by
        have hi : [('.' : Char)].intercalate ((name.dropWhile (· = '.')).splitOn '.') =
            name.dropWhile (· = '.') :=
          List.intercalate_splitOn (name.dropWhile (· = '.')) '.'
        rw [hsplit, intercalate_single_cons] at hi
        exact hi
      refine ⟨name.takeWhile (· = '.') ++ q, ?_⟩
      simp only [List.tail_cons, List.append_assoc, hq]
      exact List.takeWhile_append_dropWhile _ _

theorem take_sub_append {l front k : List Char} (hfront : front ++ k = l) :
    l.take (l.length - k.length) ++ k = l := by
  subst hfront
  rw [List.length_append, Nat.add_sub_cancel, List.take_left]

/-- The count-free decomposition: base name plus joined suffix re-forms
the requested file name. -/
theorem baseName_append_joinedSuffix (name : String) :
    baseName name ++ joinedSuffix name = name := by
  obtain ⟨front, hfront⟩ := joinedSuffixCh_decomp name.data
  unfold baseName joinedSuffix
  by_cases h : joinedSuffixCh name.data = []
  · rw [if_pos h]
    apply String.ext
    simp [String.data_append, h]
  · rw [if_neg h]
    apply String.ext
    simp only [String.data_append]
    exact take_sub_append hfront

/-- C7: with an output path the extractor writes the JSON text plus one
trailing newline to a file whose name is the record count spliced between
the base name and the (possibly multi-part) extension suffix — and base
plus suffix is exactly the requested name; with no output path the JSON
text goes to standard output un-renamed. -/
theorem c7_output_naming (events : List MarkupEvent) (indent : Int) (o : String)
    (ho : o ≠ "") :
    baseName o ++ joinedSuffix o = o ∧
    extract_main events (some o) indent =
      .writeFile
        (baseName o ++ "_" ++ toString (parse_contracts events).length ++ joinedSuffix o)
        (extractPayload events indent ++ "\n") ∧
    extract_main events none indent = .stdout (extractPayload events indent) := by
  refine ⟨baseName_append_joinedSuffix o, ?_, rfl⟩
  simp only [extract_main, derivedName]
  rw [if_pos (show strTruthy o = true by simpa [strTruthy] using ho)]

/-- Witness for C7: writing `out.json` for the one-contract document
yields `out_1.json`. -/
theorem c7_output_naming_witness :
    baseName "out.json" ++ joinedSuffix "out.json" = "out.json" ∧
    extract_main exOneContract (some "out.json") 2 =
      .writeFile
        (baseName "out.json" ++ "_" ++ toString (parse_contracts exOneContract).length
          ++ joinedSuffix "out.json")
        (extractPayload exOneContract 2 ++ "\n") ∧
    extract_main exOneContract none 2 = .stdout (extractPayload exOneContract 2) :=
  c7_output_naming exOneContract 2 "out.json" (by decide)

end DPWH
